import Mathlib

/-!
Shallow embedding of the Risk Scoring and Classification Engine of
app.py from the smart-ehs-system repository: risk score calculation,
priority classification, workflow triggers, intent classification and
corrective-action suggestion. Pure functions over exact rationals
(machine reals are modelled as rationals) and character lists
(Python strings).
-/

namespace SmartEHS

/-- The five severity dimensions used by calculate_total_risk_score. -/
inductive SeverityCategory
  | people
  | environment
  | cost
  | reputation
  | legal
  deriving DecidableEq

/-- Category weights from calculate_total_risk_score in app.py:
people 0.3, environment 0.2, cost 0.2, reputation 0.15, legal 0.15. -/
def weights : SeverityCategory → ℚ
  | .people => 3 / 10
  | .environment => 2 / 10
  | .cost => 2 / 10
  | .reputation => 15 / 100
  | .legal => 15 / 100

/-- Iteration order of the weights dictionary in calculate_total_risk_score. -/
def categoryList : List SeverityCategory :=
  [.people, .environment, .cost, .reputation, .legal]

/-- Round half to even to an integer: the tie behaviour of the Python
builtin round on exactly representable values. -/
def roundHalfEven (q : ℚ) : ℤ :=
  if q - ⌊q⌋ < 1 / 2 then ⌊q⌋
  else if 1 / 2 < q - ⌊q⌋ then ⌊q⌋ + 1
  else if ⌊q⌋ % 2 = 0 then ⌊q⌋ else ⌊q⌋ + 1

/-- Python round to one decimal place: nearest multiple of one tenth,
ties to the even tenth. -/
def pythonRound1 (q : ℚ) : ℚ :=
  (roundHalfEven (10 * q) : ℚ) / 10

/-- The local risk_score of calculate_total_risk_score before rounding:
weighted_severity times likelihood, divided by 10. -/
def raw_risk_score (severity_scores : SeverityCategory → ℚ) (likelihood : ℚ) : ℚ :=
  ((categoryList.map fun cat => severity_scores cat * weights cat).sum) * likelihood / 10

/-- Embedding of calculate_total_risk_score from app.py. -/
def calculate_total_risk_score (severity_scores : SeverityCategory → ℚ) (likelihood : ℚ) : ℚ :=
  pythonRound1 (raw_risk_score severity_scores likelihood)

/-- Priority levels returned by determine_priority. -/
inductive PriorityLevel
  | low
  | medium
  | high
  | critical
  deriving DecidableEq

/-- Embedding of determine_priority from app.py. -/
def determine_priority (risk_score : ℚ) : PriorityLevel :=
  if 75 ≤ risk_score then .critical
  else if 50 ≤ risk_score then .high
  else if 25 ≤ risk_score then .medium
  else .low

/-- Rank of a priority level in the order low, medium, high, critical. -/
def priorityRank : PriorityLevel → ℕ
  | .low => 0
  | .medium => 1
  | .high => 2
  | .critical => 3

/-- Workflow trigger booleans derived from the total risk score inside
create_enhanced_incident. -/
structure WorkflowTriggers where
  auto_create_capa : Bool
  escalate_notification : Bool
  deriving DecidableEq

/-- Embedding of the two threshold checks in create_enhanced_incident:
a CAPA row is inserted when the score is at least 50, and a critical
notification is created when the score is at least 75. -/
def evaluate_workflow_triggers (risk_score : ℚ) : WorkflowTriggers :=
  { auto_create_capa := decide (50 ≤ risk_score)
  , escalate_notification := decide (75 ≤ risk_score) }

/-- Clamping into the interval from 0 to 10 as the spec describes it;
the source itself performs no clamping. -/
def clampTo0_10 (q : ℚ) : ℚ := max 0 (min q 10)

/-- Modelled from the spec: round half away from zero to an integer,
the rounding mode section 4.2 of the spec attributes to the calculator. -/
def specRoundHalfAway (q : ℚ) : ℤ :=
  if 0 ≤ q then ⌊q + 1 / 2⌋ else -⌊-q + 1 / 2⌋

/-- Modelled from the spec: round half away from zero to one decimal
place. -/
def spec_round_half_away1 (q : ℚ) : ℚ :=
  (specRoundHalfAway (10 * q) : ℚ) / 10

/-- Python str.lower of a string, as a list of characters. -/
def lowerChars (s : String) : List Char := s.toList.map Char.toLower

/-- First list matches at the start of the second list. -/
def startsWithChars : List Char → List Char → Bool
  | [], _ => true
  | _ :: _, [] => false
  | a :: ta, b :: tb => a == b && startsWithChars ta tb

/-- Python substring containment on character lists. -/
def hasSubstr (needle : List Char) : List Char → Bool
  | [] => startsWithChars needle []
  | c :: rest => startsWithChars needle (c :: rest) || hasSubstr needle rest

/-- Intent labels of classify_enhanced_intent, plus the general
fallback. -/
inductive IntentLabel
  | report_incident
  | safety_concern
  | sds_query
  | risk_assessment
  | capa_management
  | report_generation
  | help_general
  | training_inquiry
  | compliance_check
  | general
  deriving DecidableEq

/-- Keyword lists of the intent_patterns table in
classify_enhanced_intent. -/
def intentKeywords : IntentLabel → List String
  | .report_incident =>
      ["incident", "accident", "injury", "hurt", "injured", "report incident",
       "happened", "occurred", "emergency"]
  | .safety_concern =>
      ["safety", "concern", "unsafe", "dangerous", "risk", "hazard", "observe",
       "noticed", "worried"]
  | .sds_query =>
      ["sds", "chemical", "safety data", "hazard", "msds", "substance",
       "material", "acetone", "methanol"]
  | .risk_assessment =>
      ["risk", "assess", "assessment", "evaluate", "probability", "likelihood",
       "severity", "analysis"]
  | .capa_management =>
      ["capa", "corrective", "preventive", "action", "follow-up", "tracking",
       "assignment"]
  | .report_generation =>
      ["report", "generate", "export", "download", "pdf", "statistics",
       "analytics"]
  | .help_general =>
      ["help", "what", "how", "can you", "assist", "guide", "explain",
       "tutorial"]
  | .training_inquiry =>
      ["training", "course", "learn", "education", "certification", "procedure"]
  | .compliance_check =>
      ["compliance", "regulation", "standard", "audit", "inspection", "legal"]
  | .general => []

/-- Weights of the intent_patterns table in classify_enhanced_intent. -/
def intentWeight : IntentLabel → ℚ
  | .report_incident => 2
  | .safety_concern => 2
  | .sds_query => 2
  | .risk_assessment => 18 / 10
  | .capa_management => 15 / 10
  | .report_generation => 15 / 10
  | .help_general => 1
  | .training_inquiry => 13 / 10
  | .compliance_check => 16 / 10
  | .general => 0

/-- Insertion order of the intent_patterns dictionary. -/
def intentOrder : List IntentLabel :=
  [.report_incident, .safety_concern, .sds_query, .risk_assessment,
   .capa_management, .report_generation, .help_general, .training_inquiry,
   .compliance_check]

/-- Score of one intent: the per-keyword loop of
classify_enhanced_intent, adding the weight for every keyword contained
in the lower-cased message. -/
def intentScore (text : List Char) (i : IntentLabel) : ℚ :=
  (intentKeywords i).foldl
    (fun s k => if hasSubstr k.toList text then s + intentWeight i else s) 0

/-- Python max over a nonempty list of values, given the first value:
keeps the current value unless a later one is strictly greater. -/
def pyMaxQ : ℚ → List ℚ → ℚ
  | b, [] => b
  | b, x :: xs => pyMaxQ (if b < x then x else b) xs

/-- Python max with a key function over the scores dictionary: returns
the first entry whose score no later entry strictly exceeds. -/
def pyMaxByScore : IntentLabel × ℚ → List (IntentLabel × ℚ) → IntentLabel × ℚ
  | b, [] => b
  | b, p :: ps => pyMaxByScore (if b.2 < p.2 then p else b) ps

/-- The intent_scores dictionary of classify_enhanced_intent, in
insertion order. -/
def intentScoresList (text : List Char) : List (IntentLabel × ℚ) :=
  intentOrder.map fun i => (i, intentScore text i)

/-- Python max of intent_scores.values() in classify_enhanced_intent. -/
def maxIntentScore (text : List Char) : ℚ :=
  match (intentScoresList text).map Prod.snd with
  | [] => 0
  | v :: vs => pyMaxQ v vs

/-- Embedding of classify_enhanced_intent from app.py. -/
def classify_enhanced_intent (message : String) : IntentLabel :=
  if 0 < maxIntentScore (lowerChars message) then
    match intentScoresList (lowerChars message) with
    | [] => .general
    | p :: ps => (pyMaxByScore p ps).1
  else .general

/-- Root-cause categories of suggest_corrective_action. -/
inductive ActionCategory
  | training
  | maintenance
  | ppe
  | housekeeping
  | supervision
  | procedure
  deriving DecidableEq

/-- Keyword sets of the action_mapping dictionary in
suggest_corrective_action. -/
def actionKeywords : ActionCategory → List String
  | .training =>
      ["inadequate training", "not trained", "procedure not followed",
       "unfamiliar"]
  | .maintenance =>
      ["equipment failure", "faulty", "broken", "malfunction", "worn"]
  | .ppe =>
      ["no ppe", "ppe not worn", "gloves", "helmet", "safety glasses"]
  | .housekeeping =>
      ["slip", "spill", "clutter", "mess", "debris"]
  | .supervision =>
      ["lack of supervision", "no oversight", "unsupervised"]
  | .procedure =>
      ["no procedure", "unclear instructions", "wrong method"]

/-- Remediation templates of the suggested_actions dictionary in
suggest_corrective_action. -/
def suggestedActions : ActionCategory → String
  | .training => "Provide comprehensive safety training and competency assessment"
  | .maintenance => "Implement preventive maintenance schedule and equipment inspection"
  | .ppe => "Enforce PPE requirements and conduct regular compliance checks"
  | .housekeeping => "Improve housekeeping standards and implement 5S methodology"
  | .supervision => "Enhance supervisory oversight and safety leadership"
  | .procedure => "Review and update procedures, ensure clear work instructions"

/-- Iteration order of the action_mapping dictionary. -/
def actionCategoryOrder : List ActionCategory :=
  [.training, .maintenance, .ppe, .housekeeping, .supervision, .procedure]

/-- One category matches when any of its keywords is contained in the
combined lower-cased text. -/
def categoryMatches (text : List Char) (c : ActionCategory) : Bool :=
  (actionKeywords c).any fun k => hasSubstr k.toList text

/-- Embedding of suggest_corrective_action from app.py: the combined
text is the description, a space, and the space-joined five-whys notes,
lower-cased; the first matching category wins. -/
def suggest_corrective_action (description : String) (five_whys : List String) : String :=
  match actionCategoryOrder.find?
      (categoryMatches (lowerChars (description ++ " " ++ String.intercalate " " five_whys))) with
  | some c => suggestedActions c
  | none => "Conduct thorough investigation and implement appropriate corrective measures"

/-! Helper lemmas. -/

theorem roundHalfEven_le {q : ℚ} {B : ℤ} (h : q ≤ B) : roundHalfEven q ≤ B := by
  have hfl : ⌊q⌋ ≤ B := by
    have h2 : ⌊q⌋ ≤ ⌊(B : ℚ)⌋ := Int.floor_le_floor h
    simpa using h2
  unfold roundHalfEven
  by_cases h1 : q - ⌊q⌋ < 1 / 2
  · rw [if_pos h1]; exact hfl
  · rw [if_neg h1]
    have hlt : ⌊q⌋ < B := by
      rcases eq_or_lt_of_le hfl with h2 | h2
      · exfalso
        apply h1
        have h3 : (⌊q⌋ : ℚ) = (B : ℚ) := by exact_mod_cast h2
        rw [h3]
        linarith
      · exact h2
    split_ifs <;> omega

/-! C1 -/

/-- C1: calculate_total_risk_score computes the aggregate severity as
the weighted sum with weights people 0.30, environment 0.20, cost 0.20,
reputation 0.15, legal 0.15 and returns the aggregate times likelihood
divided by 10, rounded to one decimal place. -/
theorem calculate_risk_weighted_formula (sev : SeverityCategory → ℚ) (L : ℚ) :
    calculate_total_risk_score sev L =
      pythonRound1 ((sev .people * (30 / 100) + sev .environment * (20 / 100) +
        sev .cost * (20 / 100) + sev .reputation * (15 / 100) +
        sev .legal * (15 / 100)) * L / 10) := by
  unfold calculate_total_risk_score raw_risk_score categoryList
  congr 1
  simp only [List.map_cons, List.map_nil, List.sum_cons, List.sum_nil, weights]
  ring

/-! C2 -/

/-- C2: counterexample to the clamping claim. With severity people 20
(out of range) and likelihood 10, calculate_total_risk_score returns 6,
while on the clamped input it returns 3: the code does not clamp. -/
theorem clamping_counterexample :
    calculate_total_risk_score
        (fun c => match c with | SeverityCategory.people => (20 : ℚ) | _ => 0) 10 ≠
      calculate_total_risk_score
        (fun c => clampTo0_10
          (match c with | SeverityCategory.people => (20 : ℚ) | _ => 0))
        (clampTo0_10 10) := by
  with_unfolding_all decide

/-- C2 amended: for inputs whose severity values and likelihood already
lie in the interval from 0 to 10, calculate_total_risk_score agrees with
itself on the clamped input; the code performs no clamping, so
out-of-range values flow through the formula unchanged. -/
theorem clamping_in_range (sev : SeverityCategory → ℚ) (L : ℚ)
    (hs : ∀ c, 0 ≤ sev c ∧ sev c ≤ 10) (hL0 : 0 ≤ L) (hL1 : L ≤ 10) :
    calculate_total_risk_score sev L =
      calculate_total_risk_score (fun c => clampTo0_10 (sev c)) (clampTo0_10 L) := by
  have hc : ∀ q : ℚ, 0 ≤ q → q ≤ 10 → clampTo0_10 q = q := by
    intro q h0 h1
    unfold clampTo0_10
    rw [min_eq_left h1, max_eq_right h0]
  have hfun : (fun c => clampTo0_10 (sev c)) = sev :=
    funext fun c => hc (sev c) (hs c).1 (hs c).2
  rw [hfun, hc L hL0 hL1]

/-- C2 amended, witness at severity 5 everywhere and likelihood 5. -/
theorem clamping_in_range_witness :
    calculate_total_risk_score (fun _ => (5 : ℚ)) 5 =
      calculate_total_risk_score (fun c => clampTo0_10 ((fun _ => (5 : ℚ)) c))
        (clampTo0_10 5) :=
  clamping_in_range (fun _ => 5) 5 (fun _ => ⟨by norm_num, by norm_num⟩)
    (by norm_num) (by norm_num)

/-! C3 -/

/-- C3: determine_priority returns low below 25, medium from 25 up to
50, high from 50 up to 75, critical from 75 on, and low at 0. -/
theorem determine_priority_bands (s : ℚ) :
    (s < 25 → determine_priority s = .low) ∧
    (25 ≤ s → s < 50 → determine_priority s = .medium) ∧
    (50 ≤ s → s < 75 → determine_priority s = .high) ∧
    (75 ≤ s → determine_priority s = .critical) ∧
    determine_priority 0 = .low := by
  refine ⟨fun h => ?_, fun h1 h2 => ?_, fun h1 h2 => ?_, fun h => ?_, ?_⟩ <;>
    unfold determine_priority <;>
    split_ifs <;> first | rfl | (exfalso; linarith)

/-- C3 witness at risk score 30, which is in the medium band. -/
theorem determine_priority_bands_witness :
    (25 : ℚ) ≤ 30 ∧ (30 : ℚ) < 50 ∧ determine_priority 30 = .medium :=
  ⟨by norm_num, by norm_num,
    (determine_priority_bands 30).2.1 (by norm_num) (by norm_num)⟩

/-! C4 -/

/-- C4: the workflow triggers hold exactly at the thresholds 50 for
auto CAPA creation and 75 for the escalation notification, and the
escalation implies the auto CAPA. -/
theorem workflow_trigger_rules (s : ℚ) :
    ((evaluate_workflow_triggers s).auto_create_capa = true ↔ 50 ≤ s) ∧
    ((evaluate_workflow_triggers s).escalate_notification = true ↔ 75 ≤ s) ∧
    ((evaluate_workflow_triggers s).escalate_notification = true →
      (evaluate_workflow_triggers s).auto_create_capa = true) := by
  refine ⟨?_, ?_, fun h => ?_⟩
  · show decide (50 ≤ s) = true ↔ 50 ≤ s
    exact decide_eq_true_iff
  · show decide (75 ≤ s) = true ↔ 75 ≤ s
    exact decide_eq_true_iff
  · have h2 : decide ((75 : ℚ) ≤ s) = true := h
    have h75 : (75 : ℚ) ≤ s := of_decide_eq_true h2
    show decide (50 ≤ s) = true
    exact decide_eq_true (by linarith)

/-- C4 witness at risk score 80, where both triggers fire. -/
theorem workflow_trigger_rules_witness :
    (evaluate_workflow_triggers 80).auto_create_capa = true :=
  (workflow_trigger_rules 80).2.2 (by with_unfolding_all decide)

/-! C7 -/

/-- C7: counterexample to round half away from zero. With severities
people 1 and environment 1 and likelihood 5 the unrounded score is
exactly 0.25; the code returns 0.2 while rounding half away from zero
would give 0.3. -/
theorem rounding_counterexample :
    raw_risk_score
        (fun c => match c with
          | SeverityCategory.people => (1 : ℚ)
          | SeverityCategory.environment => 1
          | _ => 0) 5 = 1 / 4 ∧
    calculate_total_risk_score
        (fun c => match c with
          | SeverityCategory.people => (1 : ℚ)
          | SeverityCategory.environment => 1
          | _ => 0) 5 = 2 / 10 ∧
    spec_round_half_away1 (1 / 4) = 3 / 10 ∧
    (2 / 10 : ℚ) ≠ 3 / 10 := by
  refine ⟨by with_unfolding_all decide, by with_unfolding_all decide,
    by with_unfolding_all decide, by with_unfolding_all decide⟩

/-- C7 amended: the result is rounded to one decimal place with the
Python builtin round, which resolves a value whose second decimal digit
is exactly 5 toward the even tenth, not away from zero. -/
theorem rounding_half_even (sev : SeverityCategory → ℚ) (L : ℚ)
    (h : 10 * raw_risk_score sev L - ⌊10 * raw_risk_score sev L⌋ = 1 / 2) :
    calculate_total_risk_score sev L =
      (if ⌊10 * raw_risk_score sev L⌋ % 2 = 0
        then (⌊10 * raw_risk_score sev L⌋ : ℚ)
        else (⌊10 * raw_risk_score sev L⌋ : ℚ) + 1) / 10 := by
  unfold calculate_total_risk_score pythonRound1 roundHalfEven
  rw [if_neg (by rw [h]; norm_num), if_neg (by rw [h]; norm_num)]
  split_ifs
  · norm_num
  · push_cast
    ring

/-- C7 amended, witness at the severities people 1, environment 1 and
likelihood 5, whose unrounded score 0.25 is a tie. -/
theorem rounding_half_even_witness :
    calculate_total_risk_score
        (fun c => match c with
          | SeverityCategory.people => (1 : ℚ)
          | SeverityCategory.environment => 1
          | _ => 0) 5 =
      (if ⌊10 * raw_risk_score
            (fun c => match c with
              | SeverityCategory.people => (1 : ℚ)
              | SeverityCategory.environment => 1
              | _ => 0) 5⌋ % 2 = 0
        then (⌊10 * raw_risk_score
            (fun c => match c with
              | SeverityCategory.people => (1 : ℚ)
              | SeverityCategory.environment => 1
              | _ => 0) 5⌋ : ℚ)
        else (⌊10 * raw_risk_score
            (fun c => match c with
              | SeverityCategory.people => (1 : ℚ)
              | SeverityCategory.environment => 1
              | _ => 0) 5⌋ : ℚ) + 1) / 10 :=
  rounding_half_even _ 5 (by with_unfolding_all decide)

/-! C8 -/

/-- C8: determine_priority is monotonically non-decreasing in the risk
score, under the rank low 0, medium 1, high 2, critical 3. -/
theorem determine_priority_monotone (s1 s2 : ℚ) (h : s1 ≤ s2) :
    priorityRank (determine_priority s1) ≤ priorityRank (determine_priority s2) := by
  unfold determine_priority
  split_ifs <;> simp only [priorityRank] <;> first | omega | (exfalso; linarith)

/-- C8 witness at the pair of scores 10 and 80. -/
theorem determine_priority_monotone_witness :
    priorityRank (determine_priority 10) ≤ priorityRank (determine_priority 80) :=
  determine_priority_monotone 10 80 (by norm_num)

/-! C9 -/

/-- C9: for in-range inputs the weighted score is at most 10, so the
priority is always low and neither workflow trigger can fire. -/
theorem in_range_scores_stay_low (sev : SeverityCategory → ℚ) (L : ℚ)
    (hs : ∀ c, 0 ≤ sev c ∧ sev c ≤ 10) (hL0 : 0 ≤ L) (hL1 : L ≤ 10) :
    calculate_total_risk_score sev L ≤ 10 ∧
    determine_priority (calculate_total_risk_score sev L) = .low ∧
    (evaluate_workflow_triggers (calculate_total_risk_score sev L)).auto_create_capa = false ∧
    (evaluate_workflow_triggers (calculate_total_risk_score sev L)).escalate_notification = false := by
  have hsum : (categoryList.map fun cat => sev cat * weights cat).sum =
      sev .people * (3 / 10) + sev .environment * (2 / 10) + sev .cost * (2 / 10) +
        sev .reputation * (15 / 100) + sev .legal * (15 / 100) := by
    simp only [categoryList, List.map_cons, List.map_nil, List.sum_cons,
      List.sum_nil, weights]
    ring
  have h1 := hs .people
  have h2 := hs .environment
  have h3 := hs .cost
  have h4 := hs .reputation
  have h5 := hs .legal
  have hw10 : (categoryList.map fun cat => sev cat * weights cat).sum ≤ 10 := by
    rw [hsum]; linarith [h1.1, h1.2, h2.1, h2.2, h3.1, h3.2, h4.1, h4.2, h5.1, h5.2]
  have hw0 : 0 ≤ (categoryList.map fun cat => sev cat * weights cat).sum := by
    rw [hsum]; linarith [h1.1, h2.1, h3.1, h4.1, h5.1]
  have hraw : raw_risk_score sev L ≤ 10 := by
    unfold raw_risk_score
    have hmul : (categoryList.map fun cat => sev cat * weights cat).sum * L ≤ 10 * L :=
      mul_le_mul_of_nonneg_right hw10 hL0
    linarith
  have hscore : calculate_total_risk_score sev L ≤ 10 := by
    unfold calculate_total_risk_score pythonRound1
    have h100 : 10 * raw_risk_score sev L ≤ ((100 : ℤ) : ℚ) := by
      push_cast; linarith
    have hle := roundHalfEven_le h100
    have hcast : (roundHalfEven (10 * raw_risk_score sev L) : ℚ) ≤ 100 := by
      exact_mod_cast hle
    linarith
  refine ⟨hscore, ?_, ?_, ?_⟩
  · unfold determine_priority
    split_ifs <;> first | rfl | (exfalso; linarith)
  · show decide (50 ≤ calculate_total_risk_score sev L) = false
    rw [decide_eq_false_iff_not]
    intro hge; linarith
  · show decide (75 ≤ calculate_total_risk_score sev L) = false
    rw [decide_eq_false_iff_not]
    intro hge; linarith

/-- C9 witness at the maximal in-range input: all severities 10 and
likelihood 10. -/
theorem in_range_scores_stay_low_witness :
    calculate_total_risk_score (fun _ => (10 : ℚ)) 10 ≤ 10 ∧
    determine_priority (calculate_total_risk_score (fun _ => (10 : ℚ)) 10) = PriorityLevel.low :=
  ⟨(in_range_scores_stay_low (fun _ => 10) 10 (fun _ => ⟨by norm_num, by norm_num⟩)
      (by norm_num) (by norm_num)).1,
   (in_range_scores_stay_low (fun _ => 10) 10 (fun _ => ⟨by norm_num, by norm_num⟩)
      (by norm_num) (by norm_num)).2.1⟩

/-! Helper lemmas about Python max and first-match search. -/

theorem pyMaxByScore_mem : ∀ (l : List (IntentLabel × ℚ)) (b : IntentLabel × ℚ),
    pyMaxByScore b l ∈ b :: l := by
  intro l
  induction l with
  | nil => intro b; simp [pyMaxByScore]
  | cons p ps ih =>
    intro b
    simp only [pyMaxByScore]
    have h := ih (if b.2 < p.2 then p else b)
    by_cases hc : b.2 < p.2
    · rw [if_pos hc] at h ⊢
      exact List.mem_cons_of_mem b h
    · rw [if_neg hc] at h ⊢
      rcases List.mem_cons.mp h with h1 | h1
      · rw [h1]; exact List.mem_cons_self b (p :: ps)
      · exact List.mem_cons_of_mem b (List.mem_cons_of_mem p h1)

theorem pyMaxByScore_le : ∀ (l : List (IntentLabel × ℚ)) (b : IntentLabel × ℚ),
    b.2 ≤ (pyMaxByScore b l).2 ∧ ∀ q ∈ l, q.2 ≤ (pyMaxByScore b l).2 := by
  intro l
  induction l with
  | nil => intro b; simp [pyMaxByScore]
  | cons p ps ih =>
    intro b
    obtain ⟨ih1, ih2⟩ := ih (if b.2 < p.2 then p else b)
    simp only [pyMaxByScore]
    constructor
    · refine le_trans ?_ ih1
      split_ifs with hc
      · exact le_of_lt hc
      · exact le_refl _
    · intro q hq
      rcases List.mem_cons.mp hq with h1 | h1
      · rw [h1]
        refine le_trans ?_ ih1
        split_ifs with hc
        · exact le_refl _
        · exact le_of_not_lt hc
      · exact ih2 q h1

theorem pyMaxByScore_find : ∀ (l : List (IntentLabel × ℚ)) (b : IntentLabel × ℚ),
    List.find? (fun q => decide ((pyMaxByScore b l).2 ≤ q.2)) (b :: l) =
      some (pyMaxByScore b l) := by
  intro l
  induction l with
  | nil => intro b; simp [pyMaxByScore, List.find?]
  | cons p ps ih =>
    intro b
    by_cases hc : b.2 < p.2
    · have hstep : pyMaxByScore b (p :: ps) = pyMaxByScore p ps := by
        simp only [pyMaxByScore, if_pos hc]
      rw [hstep]
      have hM := (pyMaxByScore_le ps p).1
      have hbM : decide ((pyMaxByScore p ps).2 ≤ b.2) = false :=
        decide_eq_false (not_le.mpr (lt_of_lt_of_le hc hM))
      simp only [List.find?, hbM]
      exact ih p
    · have hstep : pyMaxByScore b (p :: ps) = pyMaxByScore b ps := by
        simp only [pyMaxByScore, if_neg hc]
      rw [hstep]
      have ihb := ih b
      by_cases hMb : (pyMaxByScore b ps).2 ≤ b.2
      · have hdec : decide ((pyMaxByScore b ps).2 ≤ b.2) = true := decide_eq_true hMb
        simp only [List.find?, hdec] at ihb ⊢
        exact ihb
      · have hpb : ¬((pyMaxByScore b ps).2 ≤ p.2) := by
          intro hle
          exact hMb (le_trans hle (le_of_not_lt hc))
        have hdb : decide ((pyMaxByScore b ps).2 ≤ b.2) = false := decide_eq_false hMb
        have hdp : decide ((pyMaxByScore b ps).2 ≤ p.2) = false := decide_eq_false hpb
        simp only [List.find?, hdb] at ihb
        simp only [List.find?, hdb, hdp]
        exact ihb

theorem pyMaxQ_eq_pyMaxByScore : ∀ (l : List (IntentLabel × ℚ)) (b : IntentLabel × ℚ),
    pyMaxQ b.2 (l.map Prod.snd) = (pyMaxByScore b l).2 := by
  intro l
  induction l with
  | nil => intro b; simp [pyMaxQ, pyMaxByScore]
  | cons p ps ih =>
    intro b
    simp only [List.map_cons, pyMaxQ, pyMaxByScore]
    have h : (if b.2 < p.2 then p.2 else b.2) = (if b.2 < p.2 then p else b).2 :=
      (apply_ite Prod.snd (b.2 < p.2) p b).symm
    rw [h]
    exact ih _

theorem find_first_in_order {α : Type} (p : α → Bool) (a : α) :
    ∀ (pre suf : List α), (∀ b ∈ pre, p b = false) → p a = true →
      List.find? p (pre ++ a :: suf) = some a := by
  intro pre
  induction pre with
  | nil =>
    intro suf _ ha
    simp only [List.nil_append, List.find?, ha]
  | cons x xs ih =>
    intro suf hpre ha
    have hx : p x = false := hpre x (List.mem_cons_self x xs)
    simp only [List.cons_append, List.find?, hx]
    exact ih suf (fun b hb => hpre b (List.mem_cons_of_mem x hb)) ha

theorem find_none_of_all_false {α : Type} (p : α → Bool) :
    ∀ l : List α, (∀ b ∈ l, p b = false) → List.find? p l = none := by
  intro l
  induction l with
  | nil => intro _; rfl
  | cons x xs ih =>
    intro hall
    have hx : p x = false := hall x (List.mem_cons_self x xs)
    simp only [List.find?, hx]
    exact ih fun b hb => hall b (List.mem_cons_of_mem x hb)

theorem find_map_comp {α β : Type} (f : β → α) (p : α → Bool) :
    ∀ l : List β, (l.map f).find? p = (l.find? fun b => p (f b)).map f := by
  intro l
  induction l with
  | nil => rfl
  | cons x xs ih =>
    by_cases hx : p (f x) = true
    · simp only [List.map_cons, List.find?, hx]
      rfl
    · have hx2 : p (f x) = false := by
        cases h2 : p (f x)
        · rfl
        · exact absurd h2 hx
      simp only [List.map_cons, List.find?, hx2]
      exact ih

/-! Helper lemmas about intent scores. -/

theorem intentWeight_nonneg (i : IntentLabel) : 0 ≤ intentWeight i := by
  cases i <;> norm_num [intentWeight]

theorem foldl_if_add_ge (w : ℚ) (hw : 0 ≤ w) (f : String → Bool) :
    ∀ (ks : List String) (s : ℚ),
      s ≤ ks.foldl (fun acc k => if f k then acc + w else acc) s := by
  intro ks
  induction ks with
  | nil => intro s; simp
  | cons k ks ih =>
    intro s
    simp only [List.foldl_cons]
    refine le_trans ?_ (ih _)
    split_ifs <;> linarith

theorem intentScore_nonneg (text : List Char) (i : IntentLabel) :
    0 ≤ intentScore text i := by
  unfold intentScore
  exact foldl_if_add_ge (intentWeight i) (intentWeight_nonneg i)
    (fun k => hasSubstr k.toList text) (intentKeywords i) 0

theorem mem_intentScoresList (text : List Char) (q : IntentLabel × ℚ) :
    q ∈ intentScoresList text ↔ q.1 ∈ intentOrder ∧ q.2 = intentScore text q.1 := by
  unfold intentScoresList
  constructor
  · intro hq
    rcases List.mem_map.mp hq with ⟨i, hi, rfl⟩
    exact ⟨hi, rfl⟩
  · rcases q with ⟨a, b⟩
    intro h
    obtain ⟨h1, h2⟩ := h
    apply List.mem_map.mpr
    refine ⟨a, h1, ?_⟩
    simp only at h2
    rw [h2]

theorem maxIntentScore_eq (text : List Char) (p : IntentLabel × ℚ)
    (ps : List (IntentLabel × ℚ)) (h : intentScoresList text = p :: ps) :
    maxIntentScore text = (pyMaxByScore p ps).2 := by
  unfold maxIntentScore
  rw [h]
  simp only [List.map_cons]
  exact pyMaxQ_eq_pyMaxByScore ps p

theorem classify_eq_pyMax (msg : String) (p : IntentLabel × ℚ)
    (ps : List (IntentLabel × ℚ))
    (h : intentScoresList (lowerChars msg) = p :: ps) :
    classify_enhanced_intent msg =
      if 0 < (pyMaxByScore p ps).2 then (pyMaxByScore p ps).1 else .general := by
  unfold classify_enhanced_intent
  rw [maxIntentScore_eq (lowerChars msg) p ps h, h]

theorem intentScore_le_max (text : List Char) (i : IntentLabel)
    (hi : i ∈ intentOrder) : intentScore text i ≤ maxIntentScore text := by
  obtain ⟨p, ps, hl⟩ : ∃ p ps, intentScoresList text = p :: ps := ⟨_, _, rfl⟩
  rw [maxIntentScore_eq text p ps hl]
  have hqmem : (i, intentScore text i) ∈ intentScoresList text :=
    (mem_intentScoresList text (i, intentScore text i)).mpr ⟨hi, rfl⟩
  rw [hl] at hqmem
  rcases List.mem_cons.mp hqmem with h1 | h1
  · rw [← h1]
    exact (pyMaxByScore_le ps (i, intentScore text i)).1
  · exact (pyMaxByScore_le ps p).2 (i, intentScore text i) h1

theorem maxIntentScore_attained (text : List Char) :
    ∃ i ∈ intentOrder, maxIntentScore text = intentScore text i := by
  obtain ⟨p, ps, hl⟩ : ∃ p ps, intentScoresList text = p :: ps := ⟨_, _, rfl⟩
  rw [maxIntentScore_eq text p ps hl]
  have hm := pyMaxByScore_mem ps p
  rw [← hl] at hm
  obtain ⟨h1, h2⟩ := (mem_intentScoresList text (pyMaxByScore p ps)).mp hm
  exact ⟨(pyMaxByScore p ps).1, h1, h2⟩

/-! C5 -/

/-- C5: classify_enhanced_intent returns general exactly when every
intent scores 0 on the lower-cased message, returns the unique intent
with the strictly highest positive score when one exists, and
classifies the empty string as general. -/
theorem classify_intent_spec :
    (∀ msg : String,
      (classify_enhanced_intent msg = IntentLabel.general ↔
        ∀ i ∈ intentOrder, intentScore (lowerChars msg) i = 0) ∧
      (∀ i ∈ intentOrder, 0 < intentScore (lowerChars msg) i →
        (∀ j ∈ intentOrder, j ≠ i →
          intentScore (lowerChars msg) j < intentScore (lowerChars msg) i) →
        classify_enhanced_intent msg = i)) ∧
    classify_enhanced_intent "" = IntentLabel.general := by
  constructor
  · intro msg
    obtain ⟨p, ps, hl⟩ : ∃ p ps, intentScoresList (lowerChars msg) = p :: ps :=
      ⟨_, _, rfl⟩
    have hcls := classify_eq_pyMax msg p ps hl
    have hmem := pyMaxByScore_mem ps p
    rw [← hl] at hmem
    obtain ⟨hm1, hm2⟩ :=
      (mem_intentScoresList (lowerChars msg) (pyMaxByScore p ps)).mp hmem
    constructor
    · constructor
      · intro hgen i hi
        by_contra hne
        have hpos : 0 < intentScore (lowerChars msg) i :=
          lt_of_le_of_ne (intentScore_nonneg (lowerChars msg) i) (Ne.symm hne)
        have hmaxpos : 0 < maxIntentScore (lowerChars msg) :=
          lt_of_lt_of_le hpos (intentScore_le_max (lowerChars msg) i hi)
        rw [maxIntentScore_eq (lowerChars msg) p ps hl] at hmaxpos
        rw [hcls, if_pos hmaxpos] at hgen
        rw [hgen] at hm1
        exact absurd hm1 (by decide)
      · intro hall
        have hmax0 : maxIntentScore (lowerChars msg) = 0 := by
          obtain ⟨j, hj, hjEq⟩ := maxIntentScore_attained (lowerChars msg)
          rw [hjEq]
          exact hall j hj
        have hM2 : (pyMaxByScore p ps).2 = 0 := by
          rw [← maxIntentScore_eq (lowerChars msg) p ps hl]
          exact hmax0
        rw [hcls, hM2, if_neg (lt_irrefl 0)]
    · intro i hi hpos hstrict
      have hle := intentScore_le_max (lowerChars msg) i hi
      have hmax_eq : maxIntentScore (lowerChars msg) = intentScore (lowerChars msg) i := by
        obtain ⟨j, hj, hjEq⟩ := maxIntentScore_attained (lowerChars msg)
        by_cases hji : j = i
        · rw [hjEq, hji]
        · have h1 := hstrict j hj hji
          rw [← hjEq] at h1
          exact ((not_le.mpr h1) hle).elim
      have hMpos : 0 < (pyMaxByScore p ps).2 := by
        rw [← maxIntentScore_eq (lowerChars msg) p ps hl, hmax_eq]
        exact hpos
      rw [hcls, if_pos hMpos]
      by_contra hne
      have h1 := hstrict (pyMaxByScore p ps).1 hm1 hne
      rw [← hm2] at h1
      rw [← maxIntentScore_eq (lowerChars msg) p ps hl] at h1
      rw [hmax_eq] at h1
      exact lt_irrefl _ h1
  · with_unfolding_all decide

/-- C5 witness: the message help scores 1 on help_general and 0 on every
other intent, a strictly highest positive score. -/
theorem classify_intent_spec_witness :
    classify_enhanced_intent "help" = IntentLabel.help_general :=
  (classify_intent_spec.1 "help").2 IntentLabel.help_general (by decide)
    (by with_unfolding_all decide) (by with_unfolding_all decide)

/-! C6 -/

/-- C6: suggest_corrective_action returns the generic fallback exactly
when no category keyword matches the combined lower-cased text, returns
the template of the first matching category in the order training,
maintenance, ppe, housekeeping, supervision, procedure, and maps the
lockout-procedure description to the training template. -/
theorem suggest_action_spec :
    (∀ (desc : String) (whys : List String),
      (∀ c ∈ actionCategoryOrder,
        categoryMatches (lowerChars (desc ++ " " ++ String.intercalate " " whys)) c = false) →
      suggest_corrective_action desc whys =
        "Conduct thorough investigation and implement appropriate corrective measures") ∧
    (∀ (desc : String) (whys : List String) (pre : List ActionCategory)
        (c : ActionCategory) (suf : List ActionCategory),
      actionCategoryOrder = pre ++ c :: suf →
      categoryMatches (lowerChars (desc ++ " " ++ String.intercalate " " whys)) c = true →
      (∀ b ∈ pre,
        categoryMatches (lowerChars (desc ++ " " ++ String.intercalate " " whys)) b = false) →
      suggest_corrective_action desc whys = suggestedActions c) ∧
    suggest_corrective_action "employee was not trained on the lockout procedure" [] =
      "Provide comprehensive safety training and competency assessment" := by
  refine ⟨?_, ?_, ?_⟩
  · intro desc whys hall
    unfold suggest_corrective_action
    rw [find_none_of_all_false _ actionCategoryOrder hall]
  · intro desc whys pre c suf horder hc hpre
    unfold suggest_corrective_action
    rw [horder, find_first_in_order _ c pre suf hpre hc]
  · with_unfolding_all decide

/-- C6 witness: a housekeeping description where training, maintenance
and ppe do not match, so the fourth category in order wins. -/
theorem suggest_action_spec_witness :
    suggest_corrective_action "the floor had a spill near the press" [] =
      "Improve housekeeping standards and implement 5S methodology" :=
  suggest_action_spec.2.1 "the floor had a spill near the press" []
    [ActionCategory.training, ActionCategory.maintenance, ActionCategory.ppe]
    ActionCategory.housekeeping
    [ActionCategory.supervision, ActionCategory.procedure]
    rfl (by with_unfolding_all decide) (by with_unfolding_all decide)

/-! C10 -/

/-- C10: when two intents tie for the maximum positive score,
classify_enhanced_intent returns the earliest intent in the fixed
enumeration order among those attaining the maximum. -/
theorem classify_tie_break (msg : String) (i j : IntentLabel)
    (hi : i ∈ intentOrder) (hj : j ∈ intentOrder) (hij : i ≠ j)
    (hieq : intentScore (lowerChars msg) i = maxIntentScore (lowerChars msg))
    (hjeq : intentScore (lowerChars msg) j = maxIntentScore (lowerChars msg))
    (hpos : 0 < maxIntentScore (lowerChars msg)) :
    List.find?
        (fun k => decide (maxIntentScore (lowerChars msg) ≤ intentScore (lowerChars msg) k))
        intentOrder =
      some (classify_enhanced_intent msg) := by
  obtain ⟨p, ps, hl⟩ : ∃ p ps, intentScoresList (lowerChars msg) = p :: ps :=
    ⟨_, _, rfl⟩
  have hMeq := maxIntentScore_eq (lowerChars msg) p ps hl
  have hMpos : 0 < (pyMaxByScore p ps).2 := by rw [← hMeq]; exact hpos
  have hcls : classify_enhanced_intent msg = (pyMaxByScore p ps).1 := by
    rw [classify_eq_pyMax msg p ps hl, if_pos hMpos]
  have hfind := pyMaxByScore_find ps p
  rw [← hl] at hfind
  unfold intentScoresList at hfind
  rw [find_map_comp (fun i2 => (i2, intentScore (lowerChars msg) i2))
    (fun q => decide ((pyMaxByScore p ps).2 ≤ q.2)) intentOrder] at hfind
  have hfind2 : Option.map (fun i2 => (i2, intentScore (lowerChars msg) i2))
      (intentOrder.find?
        (fun b => decide ((pyMaxByScore p ps).2 ≤ intentScore (lowerChars msg) b))) =
      some (pyMaxByScore p ps) := hfind
  cases hfo : intentOrder.find?
      (fun b => decide ((pyMaxByScore p ps).2 ≤ intentScore (lowerChars msg) b)) with
  | none =>
    rw [hfo] at hfind2
    exact absurd hfind2 (by simp)
  | some a =>
    rw [hfo] at hfind2
    have ha : (a, intentScore (lowerChars msg) a) = pyMaxByScore p ps :=
      Option.some.inj hfind2
    have ha1 : a = (pyMaxByScore p ps).1 := by rw [← ha]
    rw [hMeq, hcls, ← ha1]
    exact hfo

/-- C10 witness: the message injury unsafe ties report_incident and
safety_concern at score 2, and the classifier picks report_incident. -/
theorem classify_tie_break_witness :
    List.find?
        (fun k => decide (maxIntentScore (lowerChars "injury unsafe") ≤
          intentScore (lowerChars "injury unsafe") k))
        intentOrder =
      some (classify_enhanced_intent "injury unsafe") :=
  classify_tie_break "injury unsafe" IntentLabel.report_incident
    IntentLabel.safety_concern (by decide) (by decide) (by decide)
    (by with_unfolding_all decide) (by with_unfolding_all decide)
    (by with_unfolding_all decide)

end SmartEHS
